import Mathlib

/-!
Alarm scheduler of `New_Alarm_Mutex.c`

A shallow embedding of the alarm registry, the three controller branches of `main`
(`start`, `end`, shutdown) and the body of the worker loop `alarm_callback`.

Conventions of the embedding.

* C `int` and `time_t` values are `Int`.  The only arithmetic of the program is
  `++alarm_id_counter` and `t += tmp_alarm_duration`; signed overflow is undefined
  behaviour in C, so the embedding describes the executions in which both stay in range.
* `char message[128]` holds a `String` of at most 127 bytes.  The program does not
  bound the message it copies into a slot (lines 214-217 and 238), and a longer one
  overruns the buffer into the fields behind it; that is undefined behaviour, and the
  `start` branch answers it with `Fault.overrun`, after which the embedding says
  nothing.
* `pthread_t` is a `Nat`.  The result of `pthread_create` is an input of the `start`
  branch: `.ok tid` when the thread was created, `.error check` when it was not
  (the program then calls `exit(-1)`, answered with `Fault.exited`).
* `time(NULL)` is an input of every operation that reads the clock.
* A region between `pthread_mutex_lock` and `pthread_mutex_unlock` is one atomic step.
  So is each read of `alarms[i]->occupied` in the join loop, which the program does
  without the lock.
* A worker is identified by the id it reads from its argument in line 89.  The argument
  points into the slot, and the slot's `alarm_id` is rewritten only by a later `start`
  on the same slot, which needs the slot to be free; only this worker frees it, so the
  id read is the id assigned.
-/

namespace AlarmMutex

/-! ## The program -/

/-- The constant `NUM_ALARMS`. -/
abbrev NUM_ALARMS : Nat := 3

/-- The record `alarm_t`. -/
structure alarm_t where
  alarm_id : Int
  message : String
  ring_time : Int
  seconds : Int
  occupied : Bool
  close_requested : Bool
  thread_id : Nat
deriving DecidableEq, Repr

/-- The shared state: the table `alarms` and the static `alarm_id_counter`. -/
structure Registry where
  alarms : Fin NUM_ALARMS → alarm_t
  alarm_id_counter : Int

/-- The lines printed by the program, one constructor per `printf` of the core.
`time` is the clock value rendered by `get_time_str`. -/
inductive Event where
  | InvalidInput
  | Inserted (id : Int) (time : Int) (duration : Int) (msg : String)
  | WorkerCreated (tid : Nat) (id : Int) (time : Int) (duration : Int) (msg : String)
  | Assigned (id : Int) (tid : Nat) (time : Int) (duration : Int) (msg : String)
  | SlotsExhausted
  | ScheduledToEnd (id : Int)
  | NotFound (id : Int)
  | Rang (id : Int) (tid : Nat) (time : Int) (duration : Int) (msg : String)
  | Ended (id : Int) (time : Int) (duration : Int) (msg : String)
deriving DecidableEq, Repr

/-- The constant `MAX_ALARM_MSG_LEN`, the size of `message` in `alarm_t`. -/
abbrev MAX_ALARM_MSG_LEN : Nat := 128

/-- The length `strlen` gives for a message: its number of bytes. -/
def strlen (s : String) : Nat := s.utf8ByteSize

/-- The ways in which the `start` branch does not return to the command loop.
`overrun`: the `strcpy` of line 238 writes past `message[128]`, undefined behaviour.
`exited`: `pthread_create` answered `check` and the program called `exit(-1)` in line
249, with the registry as lines 231-238 left it and the lines printed before. -/
inductive Fault where
  | overrun
  | exited (check : Int) (r : Registry) (out : List Event)

/-- The loop `for (i = 0; i < NUM_ALARMS; i++) if (p i) { ...; break; }`:
the index at which the body runs, if any. -/
def firstSlot (p : Fin NUM_ALARMS → Bool) : Option (Fin NUM_ALARMS) :=
  (List.finRange NUM_ALARMS).find? p

/-- The loop `for (i = 0; i < NUM_ALARMS; i++) body`, without `break`. -/
def forSlots {σ : Type} (body : Fin NUM_ALARMS → σ → σ) (s : σ) : σ :=
  (List.finRange NUM_ALARMS).foldl (fun acc i => body i acc) s

/-- The `start` branch of `main`, lines 215-272, after the parameter line was read and
`sscanf` returned 2: `tmp_alarm_duration` and `tmp_alarm_msg` are the values parsed,
`t` is `time(NULL)` and `create` the result of `pthread_create`.  In a free slot the
id, `close_requested`, `seconds` and `ring_time` are written first (lines 231-237), then
the message is copied (line 238), the Inserted line is printed, and the thread is
created (line 245). -/
def main_start (r : Registry) (tmp_alarm_duration : Int) (tmp_alarm_msg : String)
    (t : Int) (create : Except Int Nat) : Except Fault (Registry × List Event) :=
  if tmp_alarm_duration < 0 then
    .ok (r, [Event.InvalidInput])
  else
    match firstSlot (fun i => (r.alarms i).occupied == false) with
    | none => .ok (r, [Event.SlotsExhausted])
    | some i =>
      let id := r.alarm_id_counter + 1
      if MAX_ALARM_MSG_LEN ≤ strlen tmp_alarm_msg then
        .error Fault.overrun
      else
        match create with
        | .error check =>
          .error (Fault.exited check
            { alarms := Function.update r.alarms i
                { r.alarms i with
                  alarm_id := id
                  close_requested := false
                  seconds := tmp_alarm_duration
                  ring_time := t + tmp_alarm_duration
                  message := tmp_alarm_msg }
              alarm_id_counter := id }
            [Event.Inserted id t tmp_alarm_duration tmp_alarm_msg])
        | .ok tid =>
          .ok ({ alarms := Function.update r.alarms i
                   { alarm_id := id
                     message := tmp_alarm_msg
                     ring_time := t + tmp_alarm_duration
                     seconds := tmp_alarm_duration
                     occupied := true
                     close_requested := false
                     thread_id := tid }
                 alarm_id_counter := id },
               [Event.Inserted id t tmp_alarm_duration tmp_alarm_msg,
                Event.WorkerCreated tid id t tmp_alarm_duration tmp_alarm_msg,
                Event.Assigned id tid t tmp_alarm_duration tmp_alarm_msg])

/-- The state of the scan of the `end` branch: the table, the flag `found` and the
lines printed so far. -/
structure EndScan where
  alarms : Fin NUM_ALARMS → alarm_t
  found : Bool
  out : List Event

/-- The body of the loop of the `end` branch, lines 292-297. -/
def main_end_body (tmp_alarm_id : Int) (i : Fin NUM_ALARMS) (s : EndScan) : EndScan :=
  if (s.alarms i).alarm_id == tmp_alarm_id then
    { alarms := Function.update s.alarms i { s.alarms i with close_requested := true }
      found := true
      out := s.out ++ [Event.ScheduledToEnd (s.alarms i).alarm_id] }
  else s

/-- The `end` branch of `main`, lines 279-304, after the parameter line was read and
`sscanf` returned 1: `tmp_alarm_id` is the value parsed. -/
def main_end (r : Registry) (tmp_alarm_id : Int) : Registry × List Event :=
  if tmp_alarm_id < 0 then
    (r, [Event.InvalidInput])
  else
    let s := forSlots (main_end_body tmp_alarm_id) { alarms := r.alarms, found := false, out := [] }
    ({ r with alarms := s.alarms },
     if s.found then s.out else s.out ++ [Event.NotFound tmp_alarm_id])

/-- The locked loop of the shutdown sequence, lines 313-319. -/
def main_shutdown_broadcast (r : Registry) : Registry :=
  let al1 := forSlots (fun i al => Function.update al i { al i with close_requested := true })
    r.alarms
  { r with alarms := al1 }

/-- The local variables of `alarm_callback` that live across iterations. -/
structure Locals where
  message : String
  tid : Nat
  duration : Int
deriving DecidableEq, Repr

/-- The values of the locals before the first iteration, lines 94-97. -/
def Locals.init : Locals := { message := "", tid := 0, duration := 0 }

/-- What one pass through the locked region of `alarm_callback` leaves in the locals. -/
structure Scan where
  alarm_found : Bool
  should_ring : Bool
  close_requested : Bool
  locals : Locals
deriving DecidableEq, Repr

/-- The locked region of one iteration of `alarm_callback`, lines 103-131. -/
def alarm_callback_locked (r : Registry) (alarm_id : Int) (now : Int) (l : Locals) :
    Registry × Scan :=
  match firstSlot (fun i => (r.alarms i).alarm_id == alarm_id) with
  | none =>
    (r, { alarm_found := false, should_ring := false, close_requested := false, locals := l })
  | some i =>
    let a := r.alarms i
    let should_ring := decide (now ≥ a.ring_time)
    let r1 : Registry :=
      if should_ring then
        { r with alarms := Function.update r.alarms i { a with occupied := false } }
      else r
    (r1, { alarm_found := true
           should_ring := should_ring
           close_requested := a.close_requested
           locals := { message := a.message, tid := a.thread_id, duration := a.seconds } })

/-- The rest of one iteration of `alarm_callback`, lines 133-160: the line printed
before `break`, or `none` when the thread sleeps and iterates again. -/
def alarm_callback_after (alarm_id : Int) (now : Int) (s : Scan) : Option Event :=
  if s.close_requested then
    some (Event.Ended alarm_id now s.locals.duration s.locals.message)
  else if !s.alarm_found then
    some (Event.Ended alarm_id now s.locals.duration s.locals.message)
  else if s.should_ring then
    some (Event.Rang alarm_id s.locals.tid now s.locals.duration s.locals.message)
  else none

/-- One iteration of the loop of `alarm_callback`: the registry and locals after it, and
the terminal line if the thread leaves the loop. -/
def alarm_callback_poll (r : Registry) (alarm_id : Int) (now : Int) (l : Locals) :
    Registry × Locals × Option Event :=
  let p := alarm_callback_locked r alarm_id now l
  (p.1, p.2.locals, alarm_callback_after alarm_id now p.2)

/-! ## Sequences of operations on the registry -/

/-- The operations that act on the registry: the two commands, one iteration of a
worker, and the locked loop of the shutdown sequence. -/
inductive Op where
  | start (duration : Int) (msg : String) (t : Int) (create : Except Int Nat)
  | cancel (id : Int)
  | poll (alarm_id : Int) (now : Int) (l : Locals)
  | broadcast

/-- The effect of one operation; `none` when the `start` branch answers with a
`Fault`: the process exits in it, or its behaviour is undefined from there on. -/
def Op.apply (r : Registry) : Op → Option (Registry × List Event)
  | .start d m t c =>
    match main_start r d m t c with
    | .ok p => some p
    | .error _ => none
  | .cancel id => some (main_end r id)
  | .poll id now l =>
    let p := alarm_callback_poll r id now l
    some (p.1, p.2.2.toList)
  | .broadcast => some (main_shutdown_broadcast r, [])

/-- A sequence of operations from `r`, with the lines printed; the run stops before an
operation that answers with a `Fault`. -/
def run (r : Registry) (out : List Event) : List Op → Registry × List Event
  | [] => (r, out)
  | op :: ops =>
    match op.apply r with
    | none => (r, out)
    | some p => run p.1 (out ++ p.2) ops

/-- The state `main` sets up in lines 169-186: every slot has `occupied = FALSE` and
the counter is 0.  The other fields of a slot are not initialised by the program. -/
def Registry.isInitial (r : Registry) : Prop :=
  (∀ i, (r.alarms i).occupied = false) ∧ r.alarm_id_counter = 0

instance (r : Registry) : Decidable r.isInitial := by
  unfold Registry.isInitial
  infer_instance

/-- The ids carried by the `Inserted` lines, in the order printed. -/
def assignedIds : List Event → List Int
  | [] => []
  | Event.Inserted id _ _ _ :: es => id :: assignedIds es
  | _ :: es => assignedIds es

/-! ## The process: main thread and workers -/

/-- Where a worker thread stands in `alarm_callback`: at the top of an iteration of the
loop with its locals (lines 99-106, or asleep in line 160); past the unlock of line 131
with a terminal scan, the line of lines 133-157 not yet printed; or returned
(line 163). -/
inductive Phase where
  | polling (l : Locals)
  | reporting (e : Event)
  | exited
deriving DecidableEq, Repr

/-- A worker thread: the id it read from its argument in line 89, and where it stands. -/
structure Thread where
  alarm_id : Int
  phase : Phase
deriving DecidableEq, Repr

/-- Where the main thread stands: in the command loop (lines 197-310); in the join loop
about to test slot `i` (lines 321-327); or past the `free` calls (lines 330-336), where
it returns and the process ends. -/
inductive MainPc where
  | commands
  | joining (i : Nat)
  | freed
deriving DecidableEq, Repr

/-- The process: the registry, the threads created so far by thread id, the main
thread, and the lines printed. -/
structure Sys where
  reg : Registry
  threads : Nat → Option Thread
  main : MainPc
  out : List Event

/-- The atomic steps of the process.  `start`, `cancel` and `quit` are the commands
(`quit` runs the locked loop of lines 313-319); `join` is one iteration of the join
loop; `free` is lines 330-336; `poll` is one iteration of a worker up to the unlock;
`report` is the rest of a terminal iteration, the `printf` and the return. -/
inductive Step where
  | start (d : Int) (m : String) (t : Int) (create : Except Int Nat)
  | cancel (id : Int)
  | quit
  | join
  | free
  | poll (tid : Nat) (now : Int)
  | report (tid : Nat)

/-- The thread created by a `start`, read off the WorkerCreated line. -/
def spawned : List Event → Option (Nat × Int)
  | [] => none
  | Event.WorkerCreated tid id _ _ _ :: _ => some (tid, id)
  | _ :: es => spawned es

/-- One iteration of the join loop at slot `i`: `none` while `pthread_join` blocks.
A thread id that was never created does not block. -/
def joinSlot (s : Sys) (i : Fin NUM_ALARMS) : Option Sys :=
  if (s.reg.alarms i).occupied then
    match s.threads (s.reg.alarms i).thread_id with
    | some th => if th.phase = Phase.exited then some { s with main := .joining (i.val + 1) } else none
    | none => some { s with main := .joining (i.val + 1) }
  else some { s with main := .joining (i.val + 1) }

/-- The effect of a step; `none` when the step cannot be taken in this state (the
thread is not there, `pthread_join` blocks, the process has ended) or the `start`
branch answers with a `Fault`. -/
def Sys.exec (s : Sys) : Step → Option Sys
  | .start d m t c =>
    match s.main with
    | .commands =>
      match main_start s.reg d m t c with
      | .error _ => none
      | .ok p =>
        some { s with
          reg := p.1
          out := s.out ++ p.2
          threads :=
            match spawned p.2 with
            | some q =>
              Function.update s.threads q.1
                (some { alarm_id := q.2, phase := Phase.polling Locals.init })
            | none => s.threads }
    | _ => none
  | .cancel id =>
    match s.main with
    | .commands => some { s with reg := (main_end s.reg id).1, out := s.out ++ (main_end s.reg id).2 }
    | _ => none
  | .quit =>
    match s.main with
    | .commands => some { s with reg := main_shutdown_broadcast s.reg, main := .joining 0 }
    | _ => none
  | .join =>
    match s.main with
    | .joining i => if h : i < NUM_ALARMS then joinSlot s ⟨i, h⟩ else none
    | _ => none
  | .free =>
    match s.main with
    | .joining i => if NUM_ALARMS ≤ i then some { s with main := .freed } else none
    | _ => none
  | .poll tid now =>
    match s.main, s.threads tid with
    | .freed, _ => none
    | _, some { alarm_id := id, phase := Phase.polling l } =>
      let p := alarm_callback_poll s.reg id now l
      some { s with
        reg := p.1
        threads := Function.update s.threads tid
          (some { alarm_id := id
                  phase := match p.2.2 with
                    | some e => Phase.reporting e
                    | none => Phase.polling p.2.1 }) }
    | _, _ => none
  | .report tid =>
    match s.main, s.threads tid with
    | .freed, _ => none
    | _, some { alarm_id := id, phase := Phase.reporting e } =>
      some { s with
        out := s.out ++ [e]
        threads := Function.update s.threads tid (some { alarm_id := id, phase := Phase.exited }) }
    | _, _ => none

/-- A schedule: the steps taken one after the other; `none` if one cannot be taken. -/
def Sys.execs (s : Sys) : List Step → Option Sys
  | [] => some s
  | st :: sts =>
    match s.exec st with
    | none => none
    | some s1 => s1.execs sts

/-! ## Predicates of the statements and proofs -/

/-- The number of slots whose `occupied` flag is set. -/
def occupiedCount (r : Registry) : Nat :=
  ((List.finRange NUM_ALARMS).filter (fun i => (r.alarms i).occupied)).length

/-- The slot populated by a successful `start`. -/
def newAlarm (id : Int) (d : Int) (m : String) (t : Int) (tid : Nat) : alarm_t :=
  { alarm_id := id, message := m, ring_time := t + d, seconds := d,
    occupied := true, close_requested := false, thread_id := tid }

/-- Slot `i` is the one a lookup of `id` reaches: the lowest index whose `alarm_id`
equals `id`. -/
def holdsId (r : Registry) (id : Int) (i : Fin NUM_ALARMS) : Prop :=
  (r.alarms i).alarm_id = id ∧ ∀ j, j < i → (r.alarms j).alarm_id ≠ id

instance (r : Registry) (id : Int) (i : Fin NUM_ALARMS) : Decidable (holdsId r id i) := by
  unfold holdsId
  infer_instance

/-- What the body of the loop of the `end` branch does to one slot. -/
def closeIfId (id : Int) (a : alarm_t) : alarm_t :=
  if a.alarm_id == id then { a with close_requested := true } else a

/-- What every operation other than a successful `start` keeps of a slot: all fields but
the two flags, of which `occupied` is not raised and `close_requested` not lowered. -/
def slotKept (a b : alarm_t) : Prop :=
  b.alarm_id = a.alarm_id ∧ b.message = a.message ∧ b.ring_time = a.ring_time ∧
    b.seconds = a.seconds ∧ b.thread_id = a.thread_id ∧
    (b.occupied = true → a.occupied = true) ∧
    (a.close_requested = true → b.close_requested = true)

/-- The ids of occupied slots do not exceed the counter. -/
def idsBounded (r : Registry) : Prop :=
  ∀ i, (r.alarms i).occupied = true → (r.alarms i).alarm_id ≤ r.alarm_id_counter

/-- Two distinct occupied slots hold different ids. -/
def idsDistinct (r : Registry) : Prop :=
  ∀ i j, i ≠ j → (r.alarms i).occupied = true → (r.alarms j).occupied = true →
    (r.alarms i).alarm_id ≠ (r.alarms j).alarm_id

/-- The invariant of a run: bounded and distinct ids in the table, and the ids printed
by Inserted lines increasing and bounded by the counter. -/
def RunInv (r : Registry) (out : List Event) : Prop :=
  idsBounded r ∧ idsDistinct r ∧ (∀ x ∈ assignedIds out, x ≤ r.alarm_id_counter) ∧
    (assignedIds out).Pairwise (· < ·)

/-- An operation that does not cancel alarm `id` and is not its ringing iteration: any
`start`, an `end` of another id, an iteration of another worker, or an iteration of the
worker of `id` at a clock value below `ring`.  The shutdown broadcast cancels every
alarm. -/
def Op.leavesAlone (id : Int) (ring : Int) : Op → Bool
  | .start _ _ _ _ => true
  | .cancel k => k != id
  | .poll k now _ => k != id || decide (now < ring)
  | .broadcast => false

/-- Slot `i` holds the alarm `a`, no slot below `i` has its id, and the counter has
reached its id. -/
def Owned (r : Registry) (i : Fin NUM_ALARMS) (a : alarm_t) : Prop :=
  r.alarms i = a ∧ (∀ j, j < i → (r.alarms j).alarm_id ≠ a.alarm_id) ∧
    a.alarm_id ≤ r.alarm_id_counter

/-- Every slot is occupied and no thread is in its loop. -/
def Stuck (s : Sys) : Prop :=
  (∀ j, (s.reg.alarms j).occupied = true) ∧
    ∀ tid th, s.threads tid = some th → ∀ l, th.phase ≠ Phase.polling l

/-- What is looked at in a final state: the main thread, the lines printed, the thread
of a given id, and two flags of a slot. -/
def Sys.view (s : Sys) (tid : Nat) (i : Fin NUM_ALARMS) :
    MainPc × List Event × Option Thread × Bool × Bool :=
  (s.main, s.out, s.threads tid, (s.reg.alarms i).occupied, (s.reg.alarms i).close_requested)

/-! ## Concrete states -/

/-- A slot of freshly allocated zeroed memory with `occupied = FALSE`. -/
def alarm_t.zero : alarm_t :=
  { alarm_id := 0, message := "", ring_time := 0, seconds := 0,
    occupied := false, close_requested := false, thread_id := 0 }

/-- A message of 140 letters, longer than `message[128]`. -/
def longMessage : String := String.mk (List.replicate 140 (Char.ofNat 97))

/-- An initial registry, used for concrete runs. -/
def Registry.zero : Registry := { alarms := fun _ => alarm_t.zero, alarm_id_counter := 0 }

/-- A registry with every slot taken, ids 1, 2, 3, ring time 100. -/
def Registry.full3 : Registry :=
  { alarms := fun i => newAlarm (i.val + 1) 100 "x" 0 (i.val + 10), alarm_id_counter := 3 }

/-- A registry whose slot 0 holds alarm 1, cancelled, with its ring time reached at
any clock value from 2 on; the other slots are free. -/
def Registry.cancelledDue : Registry :=
  { alarms := fun i =>
      if i = 0 then { newAlarm 1 2 "tea" 0 7 with close_requested := true } else alarm_t.zero
    alarm_id_counter := 1 }

/-- The registry after `start` with "2 tea" at clock value 0 and the iteration of its
worker at clock value 2, from zeroed slots: alarm 1 has rung and slot 0 is free. -/
def Registry.rung : Registry :=
  (run Registry.zero [] [Op.start 2 "tea" 0 (.ok 7), Op.poll 1 2 Locals.init]).1

/-- The process when `main` enters the command loop, on zeroed slots. -/
def Sys.init : Sys :=
  { reg := Registry.zero, threads := fun _ => none, main := .commands, out := [] }

/-- A process whose three slots hold cancelled alarms with ring time 100 and whose
three workers have returned. -/
def Sys.allCancelled : Sys :=
  { reg := { alarms := fun i =>
               { newAlarm (i.val + 1) 100 "x" 0 (i.val + 10) with close_requested := true }
             alarm_id_counter := 3 }
    threads := fun tid =>
      if 10 ≤ tid ∧ tid < 13 then some { alarm_id := (tid : Int) - 9, phase := Phase.exited }
      else none
    main := MainPc.commands
    out := [] }

/-! ## The two loop shapes -/

theorem find?_pairwise_lt {n : Nat} (p : Fin n → Bool) (i : Fin n) :
    ∀ l : List (Fin n), l.Pairwise (· < ·) →
      (l.find? p = some i ↔ i ∈ l ∧ p i = true ∧ ∀ j ∈ l, j < i → p j = false)
  | [], _ => by simp
  | a :: t, hl => by
    have ht : t.Pairwise (· < ·) := (List.pairwise_cons.mp hl).2
    have ha : ∀ j ∈ t, a < j := (List.pairwise_cons.mp hl).1
    have ih := find?_pairwise_lt p i t ht
    by_cases hpa : p a = true
    · rw [List.find?_cons_of_pos _ hpa]
      constructor
      · intro h
        have hai : a = i := by simpa using h
        subst hai
        refine ⟨List.mem_cons_self _ _, hpa, ?_⟩
        intro j hj hlt
        rcases List.mem_cons.mp hj with rfl | hjt
        · exact absurd hlt (lt_irrefl _)
        · exact absurd hlt (not_lt.mpr (le_of_lt (ha j hjt)))
      · rintro ⟨hi, -, hlow⟩
        rcases List.mem_cons.mp hi with rfl | hit
        · rfl
        · have := hlow a (List.mem_cons_self _ _) (ha i hit)
          rw [hpa] at this
          exact absurd this (by decide)
    · have hpa' : p a = false := by simpa using hpa
      rw [List.find?_cons_of_neg _ hpa, ih]
      constructor
      · rintro ⟨hi, hp, hlow⟩
        refine ⟨List.mem_cons_of_mem _ hi, hp, ?_⟩
        intro j hj hlt
        rcases List.mem_cons.mp hj with rfl | hjt
        · exact hpa'
        · exact hlow j hjt hlt
      · rintro ⟨hi, hp, hlow⟩
        rcases List.mem_cons.mp hi with rfl | hit
        · rw [hpa'] at hp
          exact absurd hp (by decide)
        · exact ⟨hit, hp, fun j hj hlt => hlow j (List.mem_cons_of_mem _ hj) hlt⟩

theorem firstSlot_eq_none (p : Fin NUM_ALARMS → Bool) :
    firstSlot p = none ↔ ∀ i, p i = false := by
  unfold firstSlot
  rw [List.find?_eq_none]
  constructor
  · intro h i
    simpa using h i (List.mem_finRange i)
  · intro h i _
    simp [h i]

theorem firstSlot_eq_some (p : Fin NUM_ALARMS → Bool) (i : Fin NUM_ALARMS) :
    firstSlot p = some i ↔ p i = true ∧ ∀ j, j < i → p j = false := by
  unfold firstSlot
  rw [find?_pairwise_lt p i _ (List.pairwise_lt_finRange _)]
  constructor
  · rintro ⟨-, hp, hlow⟩
    exact ⟨hp, fun j hlt => hlow j (List.mem_finRange j) hlt⟩
  · rintro ⟨hp, hlow⟩
    exact ⟨List.mem_finRange i, hp, fun j _ hlt => hlow j hlt⟩

theorem firstSlot_isSome (p : Fin NUM_ALARMS → Bool) (k : Fin NUM_ALARMS) (hk : p k = true) :
    ∃ i, firstSlot p = some i := by
  cases h : firstSlot p with
  | some i => exact ⟨i, rfl⟩
  | none =>
    have := (firstSlot_eq_none p).mp h k
    rw [hk] at this
    exact absurd this (by decide)

/-- A loop without `break` whose body rewrites slot `i` from the value of slot `i` alone
acts on every slot independently. -/
theorem foldl_update_apply {n : Nat} (g : Fin n → alarm_t → alarm_t) (j : Fin n) :
    ∀ (l : List (Fin n)) (al : Fin n → alarm_t), l.Nodup →
      (l.foldl (fun acc i => Function.update acc i (g i (acc i))) al) j
        = if j ∈ l then g j (al j) else al j
  | [], al, _ => by simp
  | a :: t, al, hl => by
    have hat : a ∉ t := (List.nodup_cons.mp hl).1
    have ht : t.Nodup := (List.nodup_cons.mp hl).2
    rw [List.foldl_cons, foldl_update_apply g j t _ ht]
    by_cases hja : j = a
    · subst hja
      simp [hat]
    · have hne : a ≠ j := fun h => hja h.symm
      simp [hja, Function.update_noteq hja]

theorem main_end_body_alarms (id : Int) (i : Fin NUM_ALARMS) (s : EndScan) :
    (main_end_body id i s).alarms = Function.update s.alarms i (closeIfId id (s.alarms i)) := by
  unfold main_end_body closeIfId
  split <;> simp

theorem closeIfId_alarm_id (id : Int) (a : alarm_t) : (closeIfId id a).alarm_id = a.alarm_id := by
  unfold closeIfId
  split <;> rfl

theorem foldl_main_end_body_alarms (id : Int) :
    ∀ (l : List (Fin NUM_ALARMS)) (s : EndScan),
      (l.foldl (fun acc i => main_end_body id i acc) s).alarms
        = l.foldl (fun acc i => Function.update acc i (closeIfId id (acc i))) s.alarms
  | [], _ => rfl
  | a :: t, s => by
    rw [List.foldl_cons, List.foldl_cons, foldl_main_end_body_alarms id t, main_end_body_alarms]

theorem main_end_body_id (id : Int) (i j : Fin NUM_ALARMS) (s : EndScan) :
    ((main_end_body id i s).alarms j).alarm_id = (s.alarms j).alarm_id := by
  rw [main_end_body_alarms]
  by_cases h : j = i
  · subst h
    simp [closeIfId_alarm_id]
  · simp [Function.update_noteq h]

theorem foldl_main_end_body_found (id : Int) :
    ∀ (l : List (Fin NUM_ALARMS)) (s : EndScan),
      (l.foldl (fun acc i => main_end_body id i acc) s).found
        = (s.found || l.any (fun j => (s.alarms j).alarm_id == id))
  | [], s => by simp
  | a :: t, s => by
    rw [List.foldl_cons, foldl_main_end_body_found id t]
    simp only [main_end_body_id, List.any_cons]
    unfold main_end_body
    split
    · next h => simp [h]
    · next h => simp [h]

theorem foldl_main_end_body_out (id : Int) :
    ∀ (l : List (Fin NUM_ALARMS)) (s : EndScan),
      (l.foldl (fun acc i => main_end_body id i acc) s).out
        = s.out ++ (l.filter (fun j => (s.alarms j).alarm_id == id)).map
            (fun _ => Event.ScheduledToEnd id)
  | [], s => by simp
  | a :: t, s => by
    rw [List.foldl_cons, foldl_main_end_body_out id t]
    simp only [main_end_body_id]
    unfold main_end_body
    split
    · next h =>
      have h' : (s.alarms a).alarm_id = id := by simpa using h
      simp [List.filter_cons, h, h']
    · next h => simp [List.filter_cons, h]

/-- The `end` branch acts on every slot independently: it raises `close_requested` on
each slot whose `alarm_id` equals the id typed, whatever its `occupied` flag. -/
theorem main_end_alarms (r : Registry) (id : Int) (h : 0 ≤ id) (j : Fin NUM_ALARMS) :
    (main_end r id).1.alarms j = closeIfId id (r.alarms j) := by
  unfold main_end forSlots
  rw [if_neg (not_lt.mpr h)]
  simp only
  rw [foldl_main_end_body_alarms, foldl_update_apply _ _ _ _ (List.nodup_finRange _)]
  simp [List.mem_finRange]

theorem main_end_counter (r : Registry) (id : Int) :
    (main_end r id).1.alarm_id_counter = r.alarm_id_counter := by
  unfold main_end
  split <;> rfl

theorem main_end_events (r : Registry) (id : Int) (h : 0 ≤ id) :
    (main_end r id).2 =
      if ∃ j, (r.alarms j).alarm_id = id then
        ((List.finRange NUM_ALARMS).filter (fun j => (r.alarms j).alarm_id == id)).map
          (fun _ => Event.ScheduledToEnd id)
      else [Event.NotFound id] := by
  unfold main_end forSlots
  rw [if_neg (not_lt.mpr h)]
  simp only
  rw [foldl_main_end_body_found, foldl_main_end_body_out]
  by_cases hex : ∃ j, (r.alarms j).alarm_id = id
  · rw [if_pos hex]
    obtain ⟨j, hj⟩ := hex
    have : (List.finRange NUM_ALARMS).any (fun j => (r.alarms j).alarm_id == id) = true := by
      rw [List.any_eq_true]
      exact ⟨j, List.mem_finRange j, by simpa using hj⟩
    simp [this]
  · rw [if_neg hex]
    have hall : ∀ j, ¬ (r.alarms j).alarm_id = id := fun j hj => hex ⟨j, hj⟩
    have : (List.finRange NUM_ALARMS).any (fun j => (r.alarms j).alarm_id == id) = false := by
      rw [List.any_eq_false]
      intro j _
      simpa using hall j
    have hf : (List.finRange NUM_ALARMS).filter (fun j => (r.alarms j).alarm_id == id) = [] := by
      rw [List.filter_eq_nil_iff]
      intro j _
      simpa using hall j
    simp [this, hf]

theorem main_shutdown_broadcast_alarms (r : Registry) (j : Fin NUM_ALARMS) :
    (main_shutdown_broadcast r).alarms j = { r.alarms j with close_requested := true } := by
  unfold main_shutdown_broadcast forSlots
  simp only
  rw [foldl_update_apply (fun _ a => { a with close_requested := true }) _ _ _
    (List.nodup_finRange _)]
  simp [List.mem_finRange]

/-! ## The `start` branch -/

theorem main_start_full (r : Registry) (d : Int) (m : String) (t : Int) (create : Except Int Nat)
    (hfull : ∀ i, (r.alarms i).occupied = true) (hd : 0 ≤ d) :
    main_start r d m t create = .ok (r, [Event.SlotsExhausted]) := by
  have hnone : firstSlot (fun i => (r.alarms i).occupied == false) = none := by
    rw [firstSlot_eq_none]
    intro i
    simp [hfull i]
  unfold main_start
  rw [if_neg (not_lt.mpr hd), hnone]

theorem main_start_free (r : Registry) (d : Int) (m : String) (t : Int) (tid : Nat)
    (i : Fin NUM_ALARMS) (hi : (r.alarms i).occupied = false)
    (hlow : ∀ j, j < i → (r.alarms j).occupied = true) (hd : 0 ≤ d)
    (hm : strlen m < MAX_ALARM_MSG_LEN) :
    main_start r d m t (.ok tid) =
      .ok ({ alarms := Function.update r.alarms i (newAlarm (r.alarm_id_counter + 1) d m t tid)
             alarm_id_counter := r.alarm_id_counter + 1 },
           [Event.Inserted (r.alarm_id_counter + 1) t d m,
            Event.WorkerCreated tid (r.alarm_id_counter + 1) t d m,
            Event.Assigned (r.alarm_id_counter + 1) tid t d m]) := by
  have hsome : firstSlot (fun i => (r.alarms i).occupied == false) = some i := by
    rw [firstSlot_eq_some]
    refine ⟨by simp [hi], ?_⟩
    intro j hj
    simp [hlow j hj]
  unfold main_start
  rw [if_neg (not_lt.mpr hd), hsome]
  simp only
  rw [if_neg (not_le.mpr hm)]
  rfl

/-- With a free slot, a message that does not fit `message[128]` overruns it. -/
theorem main_start_overrun (r : Registry) (d : Int) (m : String) (t : Int)
    (c : Except Int Nat) (i : Fin NUM_ALARMS) (hi : (r.alarms i).occupied = false)
    (hlow : ∀ j, j < i → (r.alarms j).occupied = true) (hd : 0 ≤ d)
    (hm : MAX_ALARM_MSG_LEN ≤ strlen m) :
    main_start r d m t c = .error Fault.overrun := by
  have hsome : firstSlot (fun i => (r.alarms i).occupied == false) = some i := by
    rw [firstSlot_eq_some]
    refine ⟨by simp [hi], ?_⟩
    intro j hj
    simp [hlow j hj]
  unfold main_start
  rw [if_neg (not_lt.mpr hd), hsome]
  simp only
  rw [if_pos hm]

theorem utf8ByteSize_go_replicate (n : Nat) :
    String.utf8ByteSize.go (List.replicate n (Char.ofNat 97)) = n := by
  induction n with
  | zero => rfl
  | succ k ih =>
    rw [List.replicate_succ, String.utf8ByteSize.go, ih]
    rfl

theorem strlen_longMessage : strlen longMessage = 140 :=
  utf8ByteSize_go_replicate 140

theorem exists_first_free (r : Registry) (h : ∃ k, (r.alarms k).occupied = false) :
    ∃ i, (r.alarms i).occupied = false ∧ ∀ j, j < i → (r.alarms j).occupied = true := by
  obtain ⟨k, hk⟩ := h
  obtain ⟨i, hi⟩ := firstSlot_isSome (fun i => (r.alarms i).occupied == false) k (by simp [hk])
  rw [firstSlot_eq_some] at hi
  refine ⟨i, by simpa using hi.1, ?_⟩
  intro j hj
  simpa using hi.2 j hj

/-! ## One iteration of the worker -/

theorem firstSlot_of_holdsId (r : Registry) (id : Int) (i : Fin NUM_ALARMS)
    (h : holdsId r id i) : firstSlot (fun j => (r.alarms j).alarm_id == id) = some i := by
  rw [firstSlot_eq_some]
  refine ⟨by simpa using h.1, ?_⟩
  intro j hj
  simpa using h.2 j hj

theorem holdsId_of_firstSlot (r : Registry) (id : Int) (i : Fin NUM_ALARMS)
    (h : firstSlot (fun j => (r.alarms j).alarm_id == id) = some i) : holdsId r id i := by
  rw [firstSlot_eq_some] at h
  refine ⟨by simpa using h.1, ?_⟩
  intro j hj
  simpa using h.2 j hj

theorem firstSlot_none_of_no_id (r : Registry) (id : Int)
    (h : ∀ j, (r.alarms j).alarm_id ≠ id) :
    firstSlot (fun j => (r.alarms j).alarm_id == id) = none := by
  rw [firstSlot_eq_none]
  intro j
  simpa using h j

/-- The iteration of a worker whose id is in slot `i`, when the ring time has come. -/
theorem poll_expired (r : Registry) (id now : Int) (l : Locals) (i : Fin NUM_ALARMS)
    (h : holdsId r id i) (hn : (r.alarms i).ring_time ≤ now) :
    alarm_callback_poll r id now l =
      ({ r with alarms := Function.update r.alarms i { r.alarms i with occupied := false } },
       { message := (r.alarms i).message, tid := (r.alarms i).thread_id,
         duration := (r.alarms i).seconds },
       if (r.alarms i).close_requested then
         some (Event.Ended id now (r.alarms i).seconds (r.alarms i).message)
       else
         some (Event.Rang id (r.alarms i).thread_id now (r.alarms i).seconds
           (r.alarms i).message)) := by
  unfold alarm_callback_poll alarm_callback_locked alarm_callback_after
  rw [firstSlot_of_holdsId r id i h]
  have : decide (now ≥ (r.alarms i).ring_time) = true := by simpa using hn
  cases hc : (r.alarms i).close_requested <;> simp [this, hc]

/-- The iteration of a worker whose id is in slot `i`, before the ring time. -/
theorem poll_pending (r : Registry) (id now : Int) (l : Locals) (i : Fin NUM_ALARMS)
    (h : holdsId r id i) (hn : now < (r.alarms i).ring_time) :
    alarm_callback_poll r id now l =
      (r,
       { message := (r.alarms i).message, tid := (r.alarms i).thread_id,
         duration := (r.alarms i).seconds },
       if (r.alarms i).close_requested then
         some (Event.Ended id now (r.alarms i).seconds (r.alarms i).message)
       else none) := by
  unfold alarm_callback_poll alarm_callback_locked alarm_callback_after
  rw [firstSlot_of_holdsId r id i h]
  have : decide (now ≥ (r.alarms i).ring_time) = false := by simpa using hn
  cases hc : (r.alarms i).close_requested <;> simp [this, hc]

/-- The iteration of a worker whose id is in no slot. -/
theorem poll_vanished (r : Registry) (id now : Int) (l : Locals)
    (h : ∀ j, (r.alarms j).alarm_id ≠ id) :
    alarm_callback_poll r id now l = (r, l, some (Event.Ended id now l.duration l.message)) := by
  unfold alarm_callback_poll alarm_callback_locked alarm_callback_after
  rw [firstSlot_none_of_no_id r id h]
  simp

/-- Either some slot is reached by a lookup of `id`, or no slot has that id. -/
theorem holdsId_or_absent (r : Registry) (id : Int) :
    (∃ i, holdsId r id i) ∨ ∀ j, (r.alarms j).alarm_id ≠ id := by
  cases h : firstSlot (fun j => (r.alarms j).alarm_id == id) with
  | some i => exact Or.inl ⟨i, holdsId_of_firstSlot r id i h⟩
  | none =>
    right
    intro j
    simpa using (firstSlot_eq_none _).mp h j

theorem holdsId_unique (r : Registry) (id : Int) (i k : Fin NUM_ALARMS)
    (hi : holdsId r id i) (hk : holdsId r id k) : i = k := by
  rcases lt_trichotomy i k with h | h | h
  · exact absurd hi.1 (hk.2 i h)
  · exact h
  · exact absurd hk.1 (hi.2 k h)

/-! ## The claims on single operations -/

/-- C2, as stated, fails: in a registry with a free slot, a `start` with duration 2
and a message of 140 bytes does not return the populated registry; the copy of line 238
overruns `message[128]`. -/
theorem C2_counterexample_long_message :
    (Registry.cancelledDue.alarms 1).occupied = false ∧ (0 : Int) ≤ 2 ∧
      strlen longMessage = 140 ∧
      main_start Registry.cancelledDue 2 longMessage 10 (.ok 7) = .error Fault.overrun :=
  ⟨rfl, by decide, strlen_longMessage,
    main_start_overrun Registry.cancelledDue 2 longMessage 10 (.ok 7) 1 rfl (by decide)
      (by decide) (by rw [strlen_longMessage]; decide)⟩

/-- C2, amended: in a registry with a free slot, a `start` request with duration
`d ≥ 0`, a message `m` of at most 127 bytes, clock value `t` and a created thread `tid`
returns a registry in which the lowest-index slot `i` with `occupied = false` holds id
`counter + 1`, `seconds = d`, `ring_time = t + d`, message `m`, `occupied = true`,
`close_requested = false` (and the thread id), the counter is `counter + 1`, and every
other slot is as before; the three lines Inserted, WorkerCreated, Assigned are printed
in that order. -/
theorem C2_start_populates_first_free (r : Registry) (d : Int) (m : String) (t : Int)
    (tid : Nat) (hfree : ∃ k, (r.alarms k).occupied = false) (hd : 0 ≤ d)
    (hm : strlen m < MAX_ALARM_MSG_LEN) :
    ∃ (i : Fin NUM_ALARMS) (r1 : Registry),
      (r.alarms i).occupied = false ∧ (∀ j, j < i → (r.alarms j).occupied = true) ∧
      main_start r d m t (.ok tid) =
        .ok (r1, [Event.Inserted (r.alarm_id_counter + 1) t d m,
                  Event.WorkerCreated tid (r.alarm_id_counter + 1) t d m,
                  Event.Assigned (r.alarm_id_counter + 1) tid t d m]) ∧
      r1.alarms i =
        { alarm_id := r.alarm_id_counter + 1, message := m, ring_time := t + d, seconds := d,
          occupied := true, close_requested := false, thread_id := tid } ∧
      (∀ j, j ≠ i → r1.alarms j = r.alarms j) ∧
      r1.alarm_id_counter = r.alarm_id_counter + 1 := by
  obtain ⟨i, hi, hlow⟩ := exists_first_free r hfree
  refine ⟨i, _, hi, hlow, main_start_free r d m t tid i hi hlow hd hm, ?_, ?_, rfl⟩
  · simp [newAlarm]
  · intro j hj
    simp [Function.update_noteq hj]

theorem C2_start_populates_first_free_witness :
    (0 : Int) ≤ 2 ∧ strlen "tea" < MAX_ALARM_MSG_LEN ∧
    ∃ (i : Fin NUM_ALARMS) (r1 : Registry),
      (Registry.cancelledDue.alarms i).occupied = false ∧
      (∀ j, j < i → (Registry.cancelledDue.alarms j).occupied = true) ∧
      main_start Registry.cancelledDue 2 "tea" 10 (.ok 7) =
        .ok (r1, [Event.Inserted (Registry.cancelledDue.alarm_id_counter + 1) 10 2 "tea",
                  Event.WorkerCreated 7 (Registry.cancelledDue.alarm_id_counter + 1) 10 2 "tea",
                  Event.Assigned (Registry.cancelledDue.alarm_id_counter + 1) 7 10 2 "tea"]) ∧
      r1.alarms i =
        { alarm_id := Registry.cancelledDue.alarm_id_counter + 1, message := "tea",
          ring_time := 10 + 2, seconds := 2,
          occupied := true, close_requested := false, thread_id := 7 } ∧
      (∀ j, j ≠ i → r1.alarms j = Registry.cancelledDue.alarms j) ∧
      r1.alarm_id_counter = Registry.cancelledDue.alarm_id_counter + 1 :=
  ⟨by decide, by decide,
    C2_start_populates_first_free Registry.cancelledDue 2 "tea" 10 7 ⟨1, rfl⟩ (by decide)
      (by decide)⟩

/-- C5: when the slot reached by a worker's id has `close_requested = true` and the
clock has reached its `ring_time`, one iteration of the worker leaves the loop with the
Ended line, and so with no Rang line. -/
theorem C5_cancel_precedes_ring (r : Registry) (id now : Int) (l : Locals)
    (i : Fin NUM_ALARMS) (h : holdsId r id i)
    (hc : (r.alarms i).close_requested = true) (hn : (r.alarms i).ring_time ≤ now) :
    (alarm_callback_poll r id now l).2.2
        = some (Event.Ended id now (r.alarms i).seconds (r.alarms i).message) ∧
      ∀ tid t d m, (alarm_callback_poll r id now l).2.2 ≠ some (Event.Rang id tid t d m) := by
  have hp := poll_expired r id now l i h hn
  rw [hc] at hp
  rw [hp]
  refine ⟨rfl, ?_⟩
  intro tid t d m hcontra
  simp at hcontra

theorem holdsId_cancelledDue : holdsId Registry.cancelledDue 1 0 := by
  decide

theorem C5_cancel_precedes_ring_witness :
    holdsId Registry.cancelledDue 1 0 ∧
      (Registry.cancelledDue.alarms 0).close_requested = true ∧
      (Registry.cancelledDue.alarms 0).ring_time ≤ 5 ∧
      (alarm_callback_poll Registry.cancelledDue 1 5 Locals.init).2.2
        = some (Event.Ended 1 5 2 "tea") :=
  ⟨holdsId_cancelledDue, rfl, by decide,
    (C5_cancel_precedes_ring Registry.cancelledDue 1 5 Locals.init 0 holdsId_cancelledDue rfl
      (by decide)).1⟩

/-- C6, as stated, fails: in a registry whose slot 0 holds alarm 1, occupied, cancelled
and due, the iteration of worker 1 ends with Ended (not Rang) and clears the `occupied`
flag of slot 0. -/
theorem C6_counterexample_ended_poll_clears :
    (Registry.cancelledDue.alarms 0).occupied = true ∧
      (alarm_callback_poll Registry.cancelledDue 1 5 Locals.init).2.2
        = some (Event.Ended 1 5 2 "tea") ∧
      ((alarm_callback_poll Registry.cancelledDue 1 5 Locals.init).1.alarms 0).occupied
        = false := by
  refine ⟨rfl, ?_, ?_⟩
  · decide
  · decide

/-- What one iteration of a worker does to the registry and which line ends it. -/
theorem poll_frame (r : Registry) (id now : Int) (l : Locals) :
    (alarm_callback_poll r id now l).1.alarm_id_counter = r.alarm_id_counter ∧
    ∀ j : Fin NUM_ALARMS,
      (holdsId r id j ∧ (r.alarms j).ring_time ≤ now →
        (alarm_callback_poll r id now l).1.alarms j = { r.alarms j with occupied := false } ∧
        (alarm_callback_poll r id now l).2.2 =
          if (r.alarms j).close_requested then
            some (Event.Ended id now (r.alarms j).seconds (r.alarms j).message)
          else
            some (Event.Rang id (r.alarms j).thread_id now (r.alarms j).seconds
              (r.alarms j).message)) ∧
      (¬ (holdsId r id j ∧ (r.alarms j).ring_time ≤ now) →
        (alarm_callback_poll r id now l).1.alarms j = r.alarms j) := by
  rcases holdsId_or_absent r id with ⟨i, hi⟩ | habs
  · by_cases hn : (r.alarms i).ring_time ≤ now
    · rw [poll_expired r id now l i hi hn]
      refine ⟨rfl, fun j => ⟨?_, ?_⟩⟩
      · rintro ⟨hj, -⟩
        have := holdsId_unique r id i j hi hj
        subst this
        simp
      · intro hj
        have hne : j ≠ i := by
          rintro rfl
          exact hj ⟨hi, hn⟩
        simp [Function.update_noteq hne]
    · rw [poll_pending r id now l i hi (not_le.mp hn)]
      refine ⟨rfl, fun j => ⟨?_, fun _ => rfl⟩⟩
      rintro ⟨hj, hjn⟩
      have := holdsId_unique r id i j hi hj
      subst this
      exact absurd hjn hn
  · rw [poll_vanished r id now l habs]
    refine ⟨rfl, fun j => ⟨?_, fun _ => rfl⟩⟩
    rintro ⟨hj, -⟩
    exact absurd hj.1 (habs j)

/-- C6, amended: one iteration of a worker leaves the id counter and every field of
every slot as they were, except the `occupied` flag of the slot reached by its id, which
it sets to false exactly when the clock has reached that slot's `ring_time`; the
iteration then ends with Rang when `close_requested` is false and with Ended when it is
true.  In every other iteration (the ring time not reached, or no slot with the id) each
slot is unchanged. -/
theorem C6_poll_frame (r : Registry) (id now : Int) (l : Locals) :
    (alarm_callback_poll r id now l).1.alarm_id_counter = r.alarm_id_counter ∧
    ∀ j : Fin NUM_ALARMS,
      (holdsId r id j ∧ (r.alarms j).ring_time ≤ now →
        (alarm_callback_poll r id now l).1.alarms j = { r.alarms j with occupied := false } ∧
        (alarm_callback_poll r id now l).2.2 =
          if (r.alarms j).close_requested then
            some (Event.Ended id now (r.alarms j).seconds (r.alarms j).message)
          else
            some (Event.Rang id (r.alarms j).thread_id now (r.alarms j).seconds
              (r.alarms j).message)) ∧
      (¬ (holdsId r id j ∧ (r.alarms j).ring_time ≤ now) →
        (alarm_callback_poll r id now l).1.alarms j = r.alarms j) :=
  poll_frame r id now l

/-! ## The effect of each operation on a slot -/

theorem slotKept_refl (a : alarm_t) : slotKept a a :=
  ⟨rfl, rfl, rfl, rfl, rfl, fun hh => hh, fun hh => hh⟩

theorem firstSlot_free (r : Registry) (i : Fin NUM_ALARMS) (hi : (r.alarms i).occupied = false)
    (hlow : ∀ j, j < i → (r.alarms j).occupied = true) :
    firstSlot (fun i => (r.alarms i).occupied == false) = some i := by
  rw [firstSlot_eq_some]
  refine ⟨by simp [hi], ?_⟩
  intro j hj
  simp [hlow j hj]

/-- The ways in which the `start` branch returns. -/
theorem main_start_cases (r : Registry) (d : Int) (m : String) (t : Int) (c : Except Int Nat)
    (r1 : Registry) (evs : List Event) (h : main_start r d m t c = .ok (r1, evs)) :
    (r1 = r ∧ (evs = [Event.InvalidInput] ∨ evs = [Event.SlotsExhausted])) ∨
    ∃ (i : Fin NUM_ALARMS) (tid : Nat),
      c = .ok tid ∧ 0 ≤ d ∧ (r.alarms i).occupied = false ∧
      (∀ j, j < i → (r.alarms j).occupied = true) ∧
      r1 = { alarms := Function.update r.alarms i (newAlarm (r.alarm_id_counter + 1) d m t tid)
             alarm_id_counter := r.alarm_id_counter + 1 } ∧
      evs = [Event.Inserted (r.alarm_id_counter + 1) t d m,
             Event.WorkerCreated tid (r.alarm_id_counter + 1) t d m,
             Event.Assigned (r.alarm_id_counter + 1) tid t d m] := by
  by_cases hd : d < 0
  · left
    unfold main_start at h
    rw [if_pos hd] at h
    have := Prod.mk.inj (Except.ok.inj h)
    exact ⟨this.1.symm, Or.inl this.2.symm⟩
  · have hd' : 0 ≤ d := not_lt.mp hd
    by_cases hfull : ∀ i, (r.alarms i).occupied = true
    · left
      rw [main_start_full r d m t c hfull hd'] at h
      have := Prod.mk.inj (Except.ok.inj h)
      exact ⟨this.1.symm, Or.inr this.2.symm⟩
    · have hfree : ∃ k, (r.alarms k).occupied = false := by
        by_contra hne
        apply hfull
        intro i
        by_contra hi
        exact hne ⟨i, by simpa using hi⟩
      obtain ⟨i, hi, hlow⟩ := exists_first_free r hfree
      right
      by_cases hm : MAX_ALARM_MSG_LEN ≤ strlen m
      · unfold main_start at h
        rw [if_neg hd, firstSlot_free r i hi hlow] at h
        simp only at h
        rw [if_pos hm] at h
        cases h
      · cases c with
        | error check =>
          unfold main_start at h
          rw [if_neg hd, firstSlot_free r i hi hlow] at h
          simp only at h
          rw [if_neg hm] at h
          cases h
        | ok tid =>
          rw [main_start_free r d m t tid i hi hlow hd' (not_le.mp hm)] at h
          have := Prod.mk.inj (Except.ok.inj h)
          exact ⟨i, tid, rfl, hd', hi, hlow, this.1.symm, this.2.symm⟩

theorem assignedIds_append (xs ys : List Event) :
    assignedIds (xs ++ ys) = assignedIds xs ++ assignedIds ys := by
  induction xs with
  | nil => rfl
  | cons e es ih => cases e <;> simp [assignedIds, ih]

theorem assignedIds_scheduled (id : Int) (l : List (Fin NUM_ALARMS)) :
    assignedIds (l.map (fun _ => Event.ScheduledToEnd id)) = [] := by
  induction l with
  | nil => rfl
  | cons a t ih => simpa [assignedIds] using ih

theorem main_end_assignedIds (r : Registry) (id : Int) : assignedIds (main_end r id).2 = [] := by
  by_cases h : id < 0
  · unfold main_end
    rw [if_pos h]
    rfl
  · rw [main_end_events r id (not_lt.mp h)]
    split
    · exact assignedIds_scheduled id _
    · rfl

theorem main_end_slot (r : Registry) (id : Int) (j : Fin NUM_ALARMS) :
    (main_end r id).1.alarms j = r.alarms j ∨
      (0 ≤ id ∧ (r.alarms j).alarm_id = id ∧
        (main_end r id).1.alarms j = { r.alarms j with close_requested := true }) := by
  by_cases h : id < 0
  · left
    unfold main_end
    rw [if_pos h]
  · rw [main_end_alarms r id (not_lt.mp h)]
    unfold closeIfId
    by_cases hj : (r.alarms j).alarm_id = id
    · right
      exact ⟨not_lt.mp h, hj, by simp [hj]⟩
    · left
      simp [hj]

theorem main_end_kept (r : Registry) (id : Int) (j : Fin NUM_ALARMS) :
    slotKept (r.alarms j) ((main_end r id).1.alarms j) := by
  rcases main_end_slot r id j with h | ⟨-, -, h⟩
  · rw [h]
    exact slotKept_refl _
  · rw [h]
    exact ⟨rfl, rfl, rfl, rfl, rfl, fun hh => hh, fun _ => rfl⟩

theorem broadcast_kept (r : Registry) (j : Fin NUM_ALARMS) :
    slotKept (r.alarms j) ((main_shutdown_broadcast r).alarms j) := by
  rw [main_shutdown_broadcast_alarms]
  exact ⟨rfl, rfl, rfl, rfl, rfl, fun hh => hh, fun _ => rfl⟩

theorem poll_kept (r : Registry) (id now : Int) (l : Locals) (j : Fin NUM_ALARMS) :
    slotKept (r.alarms j) ((alarm_callback_poll r id now l).1.alarms j) := by
  by_cases h : holdsId r id j ∧ (r.alarms j).ring_time ≤ now
  · rw [((poll_frame r id now l).2 j).1 h |>.1]
    exact ⟨rfl, rfl, rfl, rfl, rfl, fun hc => by simp at hc, fun hh => hh⟩
  · rw [((poll_frame r id now l).2 j).2 h]
    exact slotKept_refl _

theorem poll_assignedIds (r : Registry) (id now : Int) (l : Locals) :
    assignedIds (alarm_callback_poll r id now l).2.2.toList = [] := by
  unfold alarm_callback_poll alarm_callback_after
  simp only
  split
  · rfl
  · split
    · rfl
    · split <;> rfl

/-- Every operation other than `start` keeps the counter, prints no Inserted line and
keeps every slot in the sense of `slotKept`. -/
theorem apply_nonstart (r : Registry) (op : Op) (r1 : Registry) (evs : List Event)
    (h : op.apply r = some (r1, evs)) (hop : ∀ d m t c, op ≠ Op.start d m t c) :
    r1.alarm_id_counter = r.alarm_id_counter ∧ assignedIds evs = [] ∧
      ∀ j, slotKept (r.alarms j) (r1.alarms j) := by
  cases op with
  | start d m t c => exact absurd rfl (hop d m t c)
  | cancel id =>
    have := Prod.mk.inj (Option.some.inj h)
    rw [← this.1, ← this.2]
    exact ⟨main_end_counter r id, main_end_assignedIds r id, main_end_kept r id⟩
  | poll id now l =>
    have := Prod.mk.inj (Option.some.inj h)
    rw [← this.1, ← this.2]
    exact ⟨(poll_frame r id now l).1, poll_assignedIds r id now l, poll_kept r id now l⟩
  | broadcast =>
    have := Prod.mk.inj (Option.some.inj h)
    rw [← this.1, ← this.2]
    exact ⟨rfl, rfl, broadcast_kept r⟩

/-- The ways in which a `start` operation returns. -/
theorem apply_start (r : Registry) (d : Int) (m : String) (t : Int) (c : Except Int Nat)
    (r1 : Registry) (evs : List Event) (h : (Op.start d m t c).apply r = some (r1, evs)) :
    main_start r d m t c = .ok (r1, evs) := by
  have h1 : (match main_start r d m t c with
      | .ok p => some p
      | .error _ => none) = some (r1, evs) := h
  cases hs : main_start r d m t c with
  | error e => rw [hs] at h1; cases h1
  | ok p =>
    rw [hs] at h1
    have := Option.some.inj h1
    rw [this]

/-! ## Invariants of runs -/

theorem runInv_initial (r : Registry) (h : r.isInitial) : RunInv r [] := by
  refine ⟨?_, ?_, ?_, ?_⟩
  · intro i hi
    rw [h.1 i] at hi
    cases hi
  · intro i j _ hi
    rw [h.1 i] at hi
    cases hi
  · intro x hx
    simp [assignedIds] at hx
  · simp [assignedIds]

theorem runInv_nonstart (r : Registry) (out : List Event) (op : Op) (r1 : Registry)
    (evs : List Event) (hinv : RunInv r out) (h : op.apply r = some (r1, evs))
    (hop : ∀ d m t c, op ≠ Op.start d m t c) : RunInv r1 (out ++ evs) := by
  obtain ⟨hc, he, hk⟩ := apply_nonstart r op r1 evs h hop
  obtain ⟨hb, hd, ha, hp⟩ := hinv
  rw [RunInv, assignedIds_append, he, List.append_nil, hc]
  refine ⟨?_, ?_, ha, hp⟩
  · intro i hi
    rw [(hk i).1, hc]
    exact hb i ((hk i).2.2.2.2.2.1 hi)
  · intro i j hij hi hj
    rw [(hk i).1, (hk j).1]
    exact hd i j hij ((hk i).2.2.2.2.2.1 hi) ((hk j).2.2.2.2.2.1 hj)

theorem runInv_start (r : Registry) (out : List Event) (d : Int) (m : String) (t : Int)
    (c : Except Int Nat) (r1 : Registry) (evs : List Event) (hinv : RunInv r out)
    (h : main_start r d m t c = .ok (r1, evs)) : RunInv r1 (out ++ evs) := by
  obtain ⟨hb, hd, ha, hp⟩ := hinv
  rcases main_start_cases r d m t c r1 evs h with ⟨hr, hev⟩ | ⟨i, tid, -, -, hi, -, hr, hev⟩
  · have he : assignedIds evs = [] := by
      rcases hev with hev | hev <;> rw [hev] <;> rfl
    rw [RunInv, assignedIds_append, he, List.append_nil, hr]
    exact ⟨hb, hd, ha, hp⟩
  · have he : assignedIds evs = [r.alarm_id_counter + 1] := by
      rw [hev]
      rfl
    have hslot : ∀ j, j ≠ i → r1.alarms j = r.alarms j := by
      intro j hj
      rw [hr]
      simp [Function.update_noteq hj]
    have hnew : r1.alarms i = newAlarm (r.alarm_id_counter + 1) d m t tid := by
      rw [hr]
      simp
    have hcnt : r1.alarm_id_counter = r.alarm_id_counter + 1 := by rw [hr]
    have hold : ∀ j, j ≠ i → (r1.alarms j).occupied = true →
        (r1.alarms j).alarm_id ≤ r.alarm_id_counter := by
      intro j hj hoc
      rw [hslot j hj] at hoc ⊢
      exact hb j hoc
    rw [RunInv, assignedIds_append, he]
    refine ⟨?_, ?_, ?_, ?_⟩
    · intro j hoc
      by_cases hj : j = i
      · subst hj
        rw [hnew, hcnt]
        exact le_refl _
      · rw [hcnt]
        exact le_trans (hold j hj hoc) (by omega)
    · intro a b hab hoa hob
      by_cases hai : a = i
      · subst hai
        have hbi : b ≠ a := fun hh => hab hh.symm
        have := hold b hbi hob
        rw [hnew]
        simp only [newAlarm]
        omega
      · by_cases hbi : b = i
        · subst hbi
          have := hold a hai hoa
          rw [hnew]
          simp only [newAlarm]
          omega
        · rw [hslot a hai, hslot b hbi]
          rw [hslot a hai] at hoa
          rw [hslot b hbi] at hob
          exact hd a b hab hoa hob
    · intro x hx
      rw [hcnt]
      rcases List.mem_append.mp hx with hx | hx
      · exact le_trans (ha x hx) (by omega)
      · have : x = r.alarm_id_counter + 1 := by simpa using hx
        omega
    · rw [List.pairwise_append]
      refine ⟨hp, by simp, ?_⟩
      intro x hx y hy
      have hy' : y = r.alarm_id_counter + 1 := by simpa using hy
      have := ha x hx
      omega

theorem runInv_step (r : Registry) (out : List Event) (op : Op) (r1 : Registry)
    (evs : List Event) (hinv : RunInv r out) (h : op.apply r = some (r1, evs)) :
    RunInv r1 (out ++ evs) := by
  cases op with
  | start d m t c => exact runInv_start r out d m t c r1 evs hinv (apply_start r d m t c r1 evs h)
  | cancel id => exact runInv_nonstart r out _ r1 evs hinv h (fun _ _ _ _ hh => by cases hh)
  | poll id now l => exact runInv_nonstart r out _ r1 evs hinv h (fun _ _ _ _ hh => by cases hh)
  | broadcast => exact runInv_nonstart r out _ r1 evs hinv h (fun _ _ _ _ hh => by cases hh)

theorem runInv_run :
    ∀ (ops : List Op) (r : Registry) (out : List Event), RunInv r out →
      RunInv (run r out ops).1 (run r out ops).2
  | [], _, _, h => h
  | op :: ops, r, out, h => by
    unfold run
    cases hop : op.apply r with
    | none => exact h
    | some p =>
      obtain ⟨r1, evs⟩ := p
      exact runInv_run ops r1 (out ++ evs) (runInv_step r out op r1 evs h hop)

/-! ## The claims on runs -/

/-- C8: if `close_requested` of a slot is true before an operation (a `start` or `end`
command, a worker iteration, the shutdown broadcast), it is true after it, unless the
operation is a `start` that populates this slot, and then the slot's `occupied` flag
was false. -/
theorem C8_close_requested_monotone (r : Registry) (op : Op) (r1 : Registry)
    (evs : List Event) (j : Fin NUM_ALARMS) (h : op.apply r = some (r1, evs))
    (hc : (r.alarms j).close_requested = true) :
    (r1.alarms j).close_requested = true ∨
      ((r.alarms j).occupied = false ∧
        ∃ d m t tid, op = Op.start d m t (.ok tid) ∧
          r1.alarms j = newAlarm (r.alarm_id_counter + 1) d m t tid) := by
  cases op with
  | start d m t c =>
    rcases main_start_cases r d m t c r1 evs (apply_start r d m t c r1 evs h) with
      ⟨hr, -⟩ | ⟨i, tid, hcr, -, hi, -, hr, -⟩
    · left
      rw [hr]
      exact hc
    · by_cases hj : j = i
      · right
        subst hj
        refine ⟨hi, d, m, t, tid, by rw [hcr], ?_⟩
        rw [hr]
        simp
      · left
        rw [hr]
        simpa [Function.update_noteq hj] using hc
  | cancel id =>
    exact Or.inl ((apply_nonstart r _ r1 evs h (fun _ _ _ _ hh => by cases hh)).2.2 j
      |>.2.2.2.2.2.2 hc)
  | poll id now l =>
    exact Or.inl ((apply_nonstart r _ r1 evs h (fun _ _ _ _ hh => by cases hh)).2.2 j
      |>.2.2.2.2.2.2 hc)
  | broadcast =>
    exact Or.inl ((apply_nonstart r _ r1 evs h (fun _ _ _ _ hh => by cases hh)).2.2 j
      |>.2.2.2.2.2.2 hc)

/-! ## An alarm that is left alone keeps its slot -/

theorem owned_holdsId (r : Registry) (i : Fin NUM_ALARMS) (a : alarm_t) (h : Owned r i a) :
    holdsId r a.alarm_id i :=
  ⟨by rw [h.1], h.2.1⟩

theorem apply_cancel (r : Registry) (k : Int) (r1 : Registry) (evs : List Event)
    (h : (Op.cancel k).apply r = some (r1, evs)) : r1 = (main_end r k).1 := by
  have h1 : some (main_end r k) = some (r1, evs) := h
  rw [Option.some.inj h1]

theorem apply_poll (r : Registry) (k now : Int) (l : Locals) (r1 : Registry)
    (evs : List Event) (h : (Op.poll k now l).apply r = some (r1, evs)) :
    r1 = (alarm_callback_poll r k now l).1 := by
  have h1 : some ((alarm_callback_poll r k now l).1,
      (alarm_callback_poll r k now l).2.2.toList) = some (r1, evs) := h
  exact (Prod.mk.inj (Option.some.inj h1)).1.symm

theorem owned_step (r : Registry) (i : Fin NUM_ALARMS) (a : alarm_t) (op : Op) (r1 : Registry)
    (evs : List Event) (ho : Owned r i a) (hocc : a.occupied = true)
    (hl : op.leavesAlone a.alarm_id a.ring_time = true) (h : op.apply r = some (r1, evs)) :
    Owned r1 i a := by
  obtain ⟨hi, hlow, hcnt⟩ := ho
  cases op with
  | start d m t c =>
    rcases main_start_cases r d m t c r1 evs (apply_start r d m t c r1 evs h) with
      ⟨hr, -⟩ | ⟨k, tid, -, -, hk, -, hr, -⟩
    · rw [hr]
      exact ⟨hi, hlow, hcnt⟩
    · have hki : i ≠ k := by
        rintro rfl
        rw [hi, hocc] at hk
        cases hk
      rw [hr]
      refine ⟨by simp [Function.update_noteq hki, hi], ?_, ?_⟩
      · intro j hj
        by_cases hjk : j = k
        · subst hjk
          simp only [Function.update_same, newAlarm]
          omega
        · simp only [Function.update_noteq hjk]
          exact hlow j hj
      · simp only
        omega
  | cancel k =>
    have hk : k ≠ a.alarm_id := by simpa [Op.leavesAlone] using hl
    rw [apply_cancel r k r1 evs h]
    refine ⟨?_, ?_, ?_⟩
    · rcases main_end_slot r k i with hs | ⟨-, hid, -⟩
      · rw [hs, hi]
      · rw [hi] at hid
        exact absurd hid.symm hk
    · intro j hj
      rw [(main_end_kept r k j).1]
      exact hlow j hj
    · rw [main_end_counter]
      exact hcnt
  | poll k now l =>
    have hk : k ≠ a.alarm_id ∨ now < a.ring_time := by
      simpa [Op.leavesAlone] using hl
    rw [apply_poll r k now l r1 evs h]
    refine ⟨?_, ?_, ?_⟩
    · have hnot : ¬ (holdsId r k i ∧ (r.alarms i).ring_time ≤ now) := by
        rintro ⟨hh, hn⟩
        rw [hi] at hn
        rcases hk with hk | hk
        · have := hh.1
          rw [hi] at this
          exact hk this.symm
        · exact absurd hn (not_le.mpr hk)
      rw [((poll_frame r k now l).2 i).2 hnot, hi]
    · intro j hj
      rw [(poll_kept r k now l j).1]
      exact hlow j hj
    · rw [(poll_frame r k now l).1]
      exact hcnt
  | broadcast => simp [Op.leavesAlone] at hl

theorem owned_run (i : Fin NUM_ALARMS) (a : alarm_t) (hocc : a.occupied = true) :
    ∀ (ops : List Op) (r : Registry) (out : List Event), Owned r i a →
      (∀ op ∈ ops, op.leavesAlone a.alarm_id a.ring_time = true) →
      Owned (run r out ops).1 i a
  | [], _, _, h, _ => h
  | op :: ops, r, out, h, hl => by
    unfold run
    cases hop : op.apply r with
    | none => exact h
    | some p =>
      obtain ⟨r1, evs⟩ := p
      exact owned_run i a hocc ops r1 (out ++ evs)
        (owned_step r i a op r1 evs h hocc (hl op (List.mem_cons_self _ _)) hop)
        (fun o ho => hl o (List.mem_cons_of_mem _ ho))

theorem main_start_full_any (r : Registry) (d : Int) (m : String) (t : Int)
    (c : Except Int Nat) (hfull : ∀ i, (r.alarms i).occupied = true) :
    main_start r d m t c = .ok (r, [Event.InvalidInput]) ∨
      main_start r d m t c = .ok (r, [Event.SlotsExhausted]) := by
  by_cases hd : d < 0
  · left
    unfold main_start
    rw [if_pos hd]
  · right
    exact main_start_full r d m t c hfull (not_lt.mp hd)

theorem stuck_exec (s : Sys) (st : Step) (s1 : Sys) (hs : Stuck s) (h : s.exec st = some s1) :
    Stuck s1 := by
  obtain ⟨hfull, hth⟩ := hs
  cases st with
  | start d m t c =>
    cases hm : s.main with
    | commands =>
      rcases main_start_full_any s.reg d m t c hfull with hst | hst
      · simp only [Sys.exec, hm, hst, spawned, Option.some.injEq] at h
        rw [← h]
        exact ⟨hfull, hth⟩
      · simp only [Sys.exec, hm, hst, spawned, Option.some.injEq] at h
        rw [← h]
        exact ⟨hfull, hth⟩
    | joining i => simp [Sys.exec, hm] at h
    | freed => simp [Sys.exec, hm] at h
  | cancel id =>
    cases hm : s.main with
    | commands =>
      simp only [Sys.exec, hm, Option.some.injEq] at h
      rw [← h]
      refine ⟨?_, hth⟩
      intro j
      rcases main_end_slot s.reg id j with hj | ⟨-, -, hj⟩
      · simp only [hj]
        exact hfull j
      · simp only [hj]
        exact hfull j
    | joining i => simp [Sys.exec, hm] at h
    | freed => simp [Sys.exec, hm] at h
  | quit =>
    cases hm : s.main with
    | commands =>
      simp only [Sys.exec, hm, Option.some.injEq] at h
      rw [← h]
      refine ⟨?_, hth⟩
      intro j
      simp only [main_shutdown_broadcast_alarms]
      exact hfull j
    | joining i => simp [Sys.exec, hm] at h
    | freed => simp [Sys.exec, hm] at h
  | join =>
    cases hm : s.main with
    | commands => simp [Sys.exec, hm] at h
    | joining i =>
      simp only [Sys.exec, hm] at h
      split at h
      · next hi =>
        unfold joinSlot at h
        split at h
        · split at h
          · split at h
            · rw [← Option.some.inj h]
              exact ⟨hfull, hth⟩
            · cases h
          · rw [← Option.some.inj h]
            exact ⟨hfull, hth⟩
        · rw [← Option.some.inj h]
          exact ⟨hfull, hth⟩
      · cases h
    | freed => simp [Sys.exec, hm] at h
  | free =>
    cases hm : s.main with
    | commands => simp [Sys.exec, hm] at h
    | joining i =>
      simp only [Sys.exec, hm] at h
      split at h
      · rw [← Option.some.inj h]
        exact ⟨hfull, hth⟩
      · cases h
    | freed => simp [Sys.exec, hm] at h
  | poll tid now =>
    exfalso
    cases ht : s.threads tid with
    | none => cases hm : s.main <;> simp [Sys.exec, hm, ht] at h
    | some th =>
      obtain ⟨id, ph⟩ := th
      cases ph with
      | polling l => exact hth tid _ ht l rfl
      | reporting e => cases hm : s.main <;> simp [Sys.exec, hm, ht] at h
      | exited => cases hm : s.main <;> simp [Sys.exec, hm, ht] at h
  | report tid =>
    cases ht : s.threads tid with
    | none => cases hm : s.main <;> simp [Sys.exec, hm, ht] at h
    | some th =>
      obtain ⟨id, ph⟩ := th
      have hkeep : ∀ (s2 : Sys),
          s2.reg = s.reg →
          s2.threads = Function.update s.threads tid
            (some { alarm_id := id, phase := Phase.exited }) → Stuck s2 := by
        intro s2 hreg hthr
        refine ⟨by rw [hreg]; exact hfull, ?_⟩
        intro k th hk l
        rw [hthr] at hk
        by_cases hkt : k = tid
        · subst hkt
          simp only [Function.update_same, Option.some.injEq] at hk
          rw [← hk]
          intro hcontra
          cases hcontra
        · simp only [Function.update_noteq hkt] at hk
          exact hth k th hk l
      cases ph with
      | polling l => cases hm : s.main <;> simp [Sys.exec, hm, ht] at h
      | exited => cases hm : s.main <;> simp [Sys.exec, hm, ht] at h
      | reporting e =>
        cases hm : s.main with
        | freed => simp [Sys.exec, hm, ht] at h
        | commands =>
          simp only [Sys.exec, hm, ht, Option.some.injEq] at h
          exact hkeep s1 (by rw [← h]) (by rw [← h])
        | joining i =>
          simp only [Sys.exec, hm, ht, Option.some.injEq] at h
          exact hkeep s1 (by rw [← h]) (by rw [← h])

theorem stuck_execs :
    ∀ (sts : List Step) (s s1 : Sys), Stuck s → s.execs sts = some s1 → Stuck s1
  | [], s, s1, hs, h => by
    have : s = s1 := Option.some.inj h
    rw [← this]
    exact hs
  | st :: sts, s, s1, hs, h => by
    unfold Sys.execs at h
    cases hst : s.exec st with
    | none => rw [hst] at h; cases h
    | some s2 =>
      rw [hst] at h
      exact stuck_execs sts s2 s1 (stuck_exec s st s2 hs hst) h

/-! ## The remaining claims -/

theorem controller_keeps_occupied (r : Registry) (op : Op) (r1 : Registry) (evs : List Event)
    (j : Fin NUM_ALARMS) (hop : ∀ id now l, op ≠ Op.poll id now l)
    (h : op.apply r = some (r1, evs)) (hj : (r.alarms j).occupied = true) :
    (r1.alarms j).occupied = true := by
  cases op with
  | start d m t c =>
    rcases main_start_cases r d m t c r1 evs (apply_start r d m t c r1 evs h) with
      ⟨hr, -⟩ | ⟨i, tid, -, -, hi, -, hr, -⟩
    · rw [hr]
      exact hj
    · have hne : j ≠ i := by
        rintro rfl
        rw [hi] at hj
        cases hj
      rw [hr]
      simpa [Function.update_noteq hne] using hj
  | cancel id =>
    rw [apply_cancel r id r1 evs h]
    rcases main_end_slot r id j with hs | ⟨-, -, hs⟩
    · rw [hs]
      exact hj
    · rw [hs]
      exact hj
  | poll id now l => exact absurd rfl (hop id now l)
  | broadcast =>
    have h1 : some (main_shutdown_broadcast r, ([] : List Event)) = some (r1, evs) := h
    rw [← (Prod.mk.inj (Option.some.inj h1)).1, main_shutdown_broadcast_alarms]
    exact hj

/-- C4 fails on the code: after alarm 1 has rung (all slots free again, the Rang line
printed, `close_requested` of slot 0 false), the command `end 1` prints "Alarm(1) is
Scheduled to End" instead of "Not Found" and sets `close_requested` of the freed slot
0. -/
theorem C4_end_matches_freed_slot :
    (run Registry.zero [] [Op.start 2 "tea" 0 (.ok 7), Op.poll 1 2 Locals.init]).2
        = [Event.Inserted 1 0 2 "tea", Event.WorkerCreated 7 1 0 2 "tea",
           Event.Assigned 1 7 0 2 "tea", Event.Rang 1 7 2 2 "tea"] ∧
      (∀ j, (Registry.rung.alarms j).occupied = false) ∧
      (Registry.rung.alarms 0).close_requested = false ∧
      (main_end Registry.rung 1).2 = [Event.ScheduledToEnd 1] ∧
      ((main_end Registry.rung 1).1.alarms 0).close_requested = true := by
  refine ⟨?_, ?_, ?_, ?_, ?_⟩ <;> decide

/-- C9 fails on the code.  First schedule: alarm 1 (duration 2, inserted at clock value
0) has its worker in the loop when `quit` runs the broadcast; the worker's next
iteration, at clock value 2, clears `occupied` of slot 0 and leaves the loop to print
Ended; the join loop then finds no occupied slot, joins nothing, and the registry is
freed while the worker has not returned: its line is not among the lines printed.
Second schedule: the worker's iteration at clock value 2 comes before `quit` and leaves
the loop to print Rang; again nothing is joined and the worker has not returned when
the registry is freed. -/
theorem C9_shutdown_leaves_worker_running :
    (Sys.init.execs [Step.start 2 "tea" 0 (.ok 7), Step.quit, Step.poll 7 2,
        Step.join, Step.join, Step.join, Step.free]).map (fun s => s.view 7 0) =
      some (MainPc.freed,
        [Event.Inserted 1 0 2 "tea", Event.WorkerCreated 7 1 0 2 "tea",
         Event.Assigned 1 7 0 2 "tea"],
        some { alarm_id := 1, phase := Phase.reporting (Event.Ended 1 2 2 "tea") },
        false, true) ∧
    (Sys.init.execs [Step.start 2 "tea" 0 (.ok 7), Step.poll 7 2, Step.quit,
        Step.join, Step.join, Step.join, Step.free]).map (fun s => s.view 7 0) =
      some (MainPc.freed,
        [Event.Inserted 1 0 2 "tea", Event.WorkerCreated 7 1 0 2 "tea",
         Event.Assigned 1 7 0 2 "tea"],
        some { alarm_id := 1, phase := Phase.reporting (Event.Rang 1 7 2 2 "tea") },
        false, true) := by
  constructor <;> decide

theorem C8_close_requested_monotone_witness :
    Op.broadcast.apply Registry.cancelledDue
        = some (main_shutdown_broadcast Registry.cancelledDue, []) ∧
      (Registry.cancelledDue.alarms 0).close_requested = true ∧
      (((main_shutdown_broadcast Registry.cancelledDue).alarms 0).close_requested = true ∨
        ((Registry.cancelledDue.alarms 0).occupied = false ∧
          ∃ d m t tid, Op.broadcast = Op.start d m t (.ok tid) ∧
            (main_shutdown_broadcast Registry.cancelledDue).alarms 0
              = newAlarm (Registry.cancelledDue.alarm_id_counter + 1) d m t tid)) :=
  ⟨rfl, rfl,
    C8_close_requested_monotone Registry.cancelledDue Op.broadcast
      (main_shutdown_broadcast Registry.cancelledDue) [] 0 rfl rfl⟩

end AlarmMutex
